import Mathlib

/-!
Verification of the Rubik's-cube animation engine (`src/components/Cube.tsx`
main variant, plus the overshoot variant).  The data model and operations are
shallowly embedded over the real numbers; THREE.js vector/quaternion routines
are translated literally from their reference implementations as used by the
source (`applyAxisAngle` via `setFromAxisAngle` + `applyQuaternion`,
`premultiply` via quaternion multiplication).
-/

open scoped Classical

namespace Cube

/-- 3D vector with real components, modelling `THREE.Vector3`. -/
@[ext]
structure Vec3 where
  x : ℝ
  y : ℝ
  z : ℝ

/-- Quaternion, modelling `THREE.Quaternion` (x, y, z imaginary parts, w real part). -/
@[ext]
structure Quat where
  x : ℝ
  y : ℝ
  z : ℝ
  w : ℝ

noncomputable instance : Inhabited Vec3 := ⟨⟨0, 0, 0⟩⟩

noncomputable instance : Inhabited Quat := ⟨⟨0, 0, 0, 1⟩⟩

namespace Vec3

noncomputable def add (a b : Vec3) : Vec3 := ⟨a.x + b.x, a.y + b.y, a.z + b.z⟩

noncomputable def sub (a b : Vec3) : Vec3 := ⟨a.x - b.x, a.y - b.y, a.z - b.z⟩

/-- Scalar multiple of a vector. -/
noncomputable def smul (s : ℝ) (a : Vec3) : Vec3 := ⟨s * a.x, s * a.y, s * a.z⟩

/-- `THREE.Vector3.getComponent`: component 0 is x, 1 is y, 2 is z. -/
noncomputable def getComponent (v : Vec3) (i : ℕ) : ℝ :=
  if i = 0 then v.x else if i = 1 then v.y else v.z

end Vec3

namespace Quat

/-- `THREE.Quaternion.setFromAxisAngle` (axis assumed normalized). -/
noncomputable def setFromAxisAngle (axis : Vec3) (angle : ℝ) : Quat :=
  let halfAngle := angle / 2
  let s := Real.sin halfAngle
  ⟨axis.x * s, axis.y * s, axis.z * s, Real.cos halfAngle⟩

/-- `THREE.Quaternion.multiplyQuaternions a b` (Hamilton product a * b). -/
noncomputable def multiply (a b : Quat) : Quat :=
  ⟨a.x * b.w + a.w * b.x + a.y * b.z - a.z * b.y,
   a.y * b.w + a.w * b.y + a.z * b.x - a.x * b.z,
   a.z * b.w + a.w * b.z + a.x * b.y - a.y * b.x,
   a.w * b.w - a.x * b.x - a.y * b.y - a.z * b.z⟩

/-- `q.premultiply(p)` sets `q := p * q`. -/
noncomputable def premultiply (q p : Quat) : Quat := multiply p q

end Quat

namespace Vec3

/-- `THREE.Vector3.applyQuaternion`, translated from the THREE.js source. -/
noncomputable def applyQuaternion (v : Vec3) (q : Quat) : Vec3 :=
  let tx := 2 * (q.y * v.z - q.z * v.y)
  let ty := 2 * (q.z * v.x - q.x * v.z)
  let tz := 2 * (q.x * v.y - q.y * v.x)
  ⟨v.x + q.w * tx + q.y * tz - q.z * ty,
   v.y + q.w * ty + q.z * tx - q.x * tz,
   v.z + q.w * tz + q.x * ty - q.y * tx⟩

/-- `THREE.Vector3.applyAxisAngle`. -/
noncomputable def applyAxisAngle (v : Vec3) (axis : Vec3) (angle : ℝ) : Vec3 :=
  v.applyQuaternion (Quat.setFromAxisAngle axis angle)

end Vec3

/-- Integer lattice vector: the exact value of a grid index. -/
@[ext]
structure IVec where
  x : ℤ
  y : ℤ
  z : ℤ
deriving DecidableEq

/-- Embed an integer lattice vector into `Vec3`. -/
noncomputable def Vec3.ofInt (v : IVec) : Vec3 := ⟨(v.x : ℝ), (v.y : ℝ), (v.z : ℝ)⟩

/-- The six faces of the cube. -/
inductive Face where
  | TOP | RIGHT | BOTTOM | LEFT | FRONT | BACK
deriving DecidableEq

open Face

/-- `ROTATION_AXES` of the source (pre-normalized axis vectors). -/
noncomputable def rotationAxis : Face → Vec3
  | TOP => ⟨0, 1, 0⟩
  | RIGHT => ⟨1, 0, 0⟩
  | BOTTOM => ⟨0, -1, 0⟩
  | LEFT => ⟨-1, 0, 0⟩
  | FRONT => ⟨0, 0, 1⟩
  | BACK => ⟨0, 0, -1⟩

/-- `ROTATION_DIRECTIONS` of the main variant (`Cube.tsx`). -/
noncomputable def rotationDirection : Face → ℝ
  | RIGHT => 1
  | LEFT => -1
  | TOP => 1
  | BOTTOM => -1
  | FRONT => 1
  | BACK => -1

/-- The axis letter of `LAYER_INDICES`, mapped through `AXIS_TO_INDEX` (x ↦ 0, y ↦ 1, z ↦ 2). -/
def axisIdx : Face → ℕ
  | RIGHT => 0
  | LEFT => 0
  | TOP => 1
  | BOTTOM => 1
  | FRONT => 2
  | BACK => 2

/-- The `value` field of `LAYER_INDICES`. -/
noncomputable def layerValue : Face → ℝ
  | RIGHT => 1
  | LEFT => -1
  | TOP => 1
  | BOTTOM => -1
  | FRONT => 1
  | BACK => -1

/-- Integer version of the `value` field of `LAYER_INDICES`. -/
def layerValueZ : Face → ℤ
  | RIGHT => 1
  | LEFT => -1
  | TOP => 1
  | BOTTOM => -1
  | FRONT => 1
  | BACK => -1

/-- `ROTATION_SEQUENCE`. -/
def rotationSequence : List Face := [RIGHT, FRONT, BACK, LEFT, TOP, BOTTOM]

/-- `CUBE_SIZE`. -/
noncomputable def CUBE_SIZE : ℝ := 1.0

/-- `CUBE_GAP` (main variant). -/
noncomputable def CUBE_GAP : ℝ := 0.00001

/-- `EPSILON` (main variant). -/
noncomputable def EPSILON : ℝ := 0.000000001

/-- `getTargetPositions`: the 26 lattice cells of a solved cube, x-major loop
order, skipping the center `(0,0,0)`. -/
def getTargetPositions : List IVec :=
  ([-1, 0, 1] : List ℤ).flatMap fun x =>
    ([-1, 0, 1] : List ℤ).flatMap fun y =>
      ([-1, 0, 1] : List ℤ).filterMap fun z =>
        if x = 0 ∧ y = 0 ∧ z = 0 then none else some ⟨x, y, z⟩

/-- Per-cubie state (`CubiePosition` in the source). -/
structure CubiePosition where
  position : Vec3
  indices : Vec3
  quaternion : Quat
  type : String

noncomputable instance : Inhabited CubiePosition :=
  ⟨⟨default, default, default, ""⟩⟩

/-- `initialCubiePositions`: solved lattice scaled by `CUBE_SIZE + CUBE_GAP`,
identity orientations, cosmetic type classification. -/
noncomputable def initialCubiePositions : List CubiePosition :=
  getTargetPositions.map fun p =>
    let zeroCount := ([p.x, p.y, p.z] : List ℤ).count 0
    { position := ⟨(p.x : ℝ) * (CUBE_SIZE + CUBE_GAP), (p.y : ℝ) * (CUBE_SIZE + CUBE_GAP),
        (p.z : ℝ) * (CUBE_SIZE + CUBE_GAP)⟩
      indices := ⟨(p.x : ℝ), (p.y : ℝ), (p.z : ℝ)⟩
      quaternion := ⟨0, 0, 0, 1⟩
      type := if zeroCount = 1 then "edge" else if zeroCount = 2 then "center" else "corner" }

/-- `getFaceCenter`: the world center point of a face. -/
noncomputable def getFaceCenter (face : Face) : Vec3 :=
  match axisIdx face with
  | 0 => ⟨layerValue face * (CUBE_SIZE + CUBE_GAP), 0, 0⟩
  | 1 => ⟨0, layerValue face * (CUBE_SIZE + CUBE_GAP), 0⟩
  | _ => ⟨0, 0, layerValue face * (CUBE_SIZE + CUBE_GAP)⟩

/-- `getCubiesInLayer`: indices of cubies whose grid-index component along the
face's axis is within `EPSILON` of the face's value (non-members map to `-1`,
then are filtered out, exactly as in the source). -/
noncomputable def getCubiesInLayer (cubies : List CubiePosition) (face : Face) : List ℤ :=
  (cubies.mapIdx fun i cubie =>
      if |cubie.indices.getComponent (axisIdx face) - layerValue face| < EPSILON
      then (i : ℤ) else -1).filter (· ≠ -1)

/-- `snapToGrid`: snap each component to 0 if below `EPSILON`, else to
`sign(c) * round(|c|)`. -/
noncomputable def snapToGrid (vec : Vec3) : Vec3 :=
  ⟨if |vec.x| < EPSILON then 0 else Real.sign vec.x * (round |vec.x| : ℤ),
   if |vec.y| < EPSILON then 0 else Real.sign vec.y * (round |vec.y| : ℤ),
   if |vec.z| < EPSILON then 0 else Real.sign vec.z * (round |vec.z| : ℤ)⟩

/-- `calculateLayerRotation`: rotate the cubies of `face`'s layer by `angle`
(times the face's direction sign) about the face's axis through the face
center; other cubies pass through unchanged. -/
noncomputable def calculateLayerRotation (cubies : List CubiePosition) (face : Face)
    (angle : ℝ) : List CubiePosition :=
  let cubiesInLayer := getCubiesInLayer cubies face
  let axis := rotationAxis face
  let direction := rotationDirection face
  let centerPoint := getFaceCenter face
  let rotationQuat := Quat.setFromAxisAngle axis (angle * direction)
  cubies.mapIdx fun index cubie =>
    if ¬ ((index : ℤ) ∈ cubiesInLayer) then cubie
    else
      let newPosition := ((cubie.position.sub centerPoint).applyAxisAngle axis
        (angle * direction)).add centerPoint
      let newIndices := cubie.indices.applyAxisAngle axis (angle * direction)
      let newQuaternion := cubie.quaternion.premultiply rotationQuat
      { cubie with position := newPosition, indices := newIndices, quaternion := newQuaternion }

/-- `rotateLayer` (main variant): a committed 90° turn, snapping both the
world positions and the grid indices. -/
noncomputable def rotateLayer (cubies : List CubiePosition) (face : Face) : List CubiePosition :=
  let angle := Real.pi / 2
  let rotatedPositions := calculateLayerRotation cubies face angle
  rotatedPositions.map fun cubie =>
    { cubie with position := snapToGrid cubie.position, indices := snapToGrid cubie.indices }

/-- `easeInOutCubic`. -/
noncomputable def easeInOutCubic (t : ℝ) : ℝ :=
  if t < 0.5 then 4 * t * t * t else 1 - (-2 * t + 2) ^ 3 / 2

/-- A sequence of committed quarter turns applied to the solved cube. -/
noncomputable def applyTurns (fs : List Face) : List CubiePosition :=
  fs.foldl rotateLayer initialCubiePositions

/-! ### Closed forms of the axis-angle rotations used by the engine -/

theorem applyAxisAngle_xAxis (v : Vec3) (θ : ℝ) :
    v.applyAxisAngle ⟨1, 0, 0⟩ θ =
      ⟨v.x, Real.cos θ * v.y - Real.sin θ * v.z, Real.sin θ * v.y + Real.cos θ * v.z⟩ := by
  have hpyth := Real.sin_sq_add_cos_sq (θ / 2)
  have hθ : θ = 2 * (θ / 2) := by ring
  simp only [Vec3.applyAxisAngle, Vec3.applyQuaternion, Quat.setFromAxisAngle]
  ext
  · ring
  · conv_rhs => rw [hθ, Real.cos_two_mul, Real.sin_two_mul]
    linear_combination (-2 * v.y) * hpyth
  · conv_rhs => rw [hθ, Real.cos_two_mul, Real.sin_two_mul]
    linear_combination (-2 * v.z) * hpyth

theorem applyAxisAngle_yAxis (v : Vec3) (θ : ℝ) :
    v.applyAxisAngle ⟨0, 1, 0⟩ θ =
      ⟨Real.cos θ * v.x + Real.sin θ * v.z, v.y, -Real.sin θ * v.x + Real.cos θ * v.z⟩ := by
  have hpyth := Real.sin_sq_add_cos_sq (θ / 2)
  have hθ : θ = 2 * (θ / 2) := by ring
  simp only [Vec3.applyAxisAngle, Vec3.applyQuaternion, Quat.setFromAxisAngle]
  ext
  · conv_rhs => rw [hθ, Real.cos_two_mul, Real.sin_two_mul]
    linear_combination (-2 * v.x) * hpyth
  · ring
  · conv_rhs => rw [hθ, Real.cos_two_mul, Real.sin_two_mul]
    linear_combination (-2 * v.z) * hpyth

theorem applyAxisAngle_zAxis (v : Vec3) (θ : ℝ) :
    v.applyAxisAngle ⟨0, 0, 1⟩ θ =
      ⟨Real.cos θ * v.x - Real.sin θ * v.y, Real.sin θ * v.x + Real.cos θ * v.y, v.z⟩ := by
  have hpyth := Real.sin_sq_add_cos_sq (θ / 2)
  have hθ : θ = 2 * (θ / 2) := by ring
  simp only [Vec3.applyAxisAngle, Vec3.applyQuaternion, Quat.setFromAxisAngle]
  ext
  · conv_rhs => rw [hθ, Real.cos_two_mul, Real.sin_two_mul]
    linear_combination (-2 * v.x) * hpyth
  · conv_rhs => rw [hθ, Real.cos_two_mul, Real.sin_two_mul]
    linear_combination (-2 * v.y) * hpyth
  · ring

theorem applyAxisAngle_negxAxis (v : Vec3) (θ : ℝ) :
    v.applyAxisAngle ⟨-1, 0, 0⟩ θ =
      ⟨v.x, Real.cos θ * v.y + Real.sin θ * v.z, -Real.sin θ * v.y + Real.cos θ * v.z⟩ := by
  have hpyth := Real.sin_sq_add_cos_sq (θ / 2)
  have hθ : θ = 2 * (θ / 2) := by ring
  simp only [Vec3.applyAxisAngle, Vec3.applyQuaternion, Quat.setFromAxisAngle]
  ext
  · ring
  · conv_rhs => rw [hθ, Real.cos_two_mul, Real.sin_two_mul]
    linear_combination (-2 * v.y) * hpyth
  · conv_rhs => rw [hθ, Real.cos_two_mul, Real.sin_two_mul]
    linear_combination (-2 * v.z) * hpyth

theorem applyAxisAngle_negyAxis (v : Vec3) (θ : ℝ) :
    v.applyAxisAngle ⟨0, -1, 0⟩ θ =
      ⟨Real.cos θ * v.x - Real.sin θ * v.z, v.y, Real.sin θ * v.x + Real.cos θ * v.z⟩ := by
  have hpyth := Real.sin_sq_add_cos_sq (θ / 2)
  have hθ : θ = 2 * (θ / 2) := by ring
  simp only [Vec3.applyAxisAngle, Vec3.applyQuaternion, Quat.setFromAxisAngle]
  ext
  · conv_rhs => rw [hθ, Real.cos_two_mul, Real.sin_two_mul]
    linear_combination (-2 * v.x) * hpyth
  · ring
  · conv_rhs => rw [hθ, Real.cos_two_mul, Real.sin_two_mul]
    linear_combination (-2 * v.z) * hpyth

theorem applyAxisAngle_negzAxis (v : Vec3) (θ : ℝ) :
    v.applyAxisAngle ⟨0, 0, -1⟩ θ =
      ⟨Real.cos θ * v.x + Real.sin θ * v.y, -Real.sin θ * v.x + Real.cos θ * v.y, v.z⟩ := by
  have hpyth := Real.sin_sq_add_cos_sq (θ / 2)
  have hθ : θ = 2 * (θ / 2) := by ring
  simp only [Vec3.applyAxisAngle, Vec3.applyQuaternion, Quat.setFromAxisAngle]
  ext
  · conv_rhs => rw [hθ, Real.cos_two_mul, Real.sin_two_mul]
    linear_combination (-2 * v.x) * hpyth
  · conv_rhs => rw [hθ, Real.cos_two_mul, Real.sin_two_mul]
    linear_combination (-2 * v.y) * hpyth
  · ring

/-- The exact spatial effect of a face's committed quarter turn (angle `π/2`
times the face's direction sign, about the face's axis). -/
noncomputable def faceRotR : Face → Vec3 → Vec3
  | RIGHT, v => ⟨v.x, -v.z, v.y⟩
  | LEFT, v => ⟨v.x, -v.z, v.y⟩
  | TOP, v => ⟨v.z, v.y, -v.x⟩
  | BOTTOM, v => ⟨v.z, v.y, -v.x⟩
  | FRONT, v => ⟨-v.y, v.x, v.z⟩
  | BACK, v => ⟨-v.y, v.x, v.z⟩

theorem applyAxisAngle_face (f : Face) (v : Vec3) :
    v.applyAxisAngle (rotationAxis f) (Real.pi / 2 * rotationDirection f) = faceRotR f v := by
  cases f
  · rw [show rotationAxis TOP = ⟨0, 1, 0⟩ from rfl, applyAxisAngle_yAxis]
    simp [rotationDirection, faceRotR, Real.cos_pi_div_two, Real.sin_pi_div_two]
  · rw [show rotationAxis RIGHT = ⟨1, 0, 0⟩ from rfl, applyAxisAngle_xAxis]
    simp [rotationDirection, faceRotR, Real.cos_pi_div_two, Real.sin_pi_div_two]
  · rw [show rotationAxis BOTTOM = ⟨0, -1, 0⟩ from rfl, applyAxisAngle_negyAxis,
      show Real.pi / 2 * rotationDirection BOTTOM = -(Real.pi / 2) by
        simp [rotationDirection]]
    simp [faceRotR, Real.cos_pi_div_two, Real.sin_pi_div_two]
  · rw [show rotationAxis LEFT = ⟨-1, 0, 0⟩ from rfl, applyAxisAngle_negxAxis,
      show Real.pi / 2 * rotationDirection LEFT = -(Real.pi / 2) by
        simp [rotationDirection]]
    simp [faceRotR, Real.cos_pi_div_two, Real.sin_pi_div_two]
  · rw [show rotationAxis FRONT = ⟨0, 0, 1⟩ from rfl, applyAxisAngle_zAxis]
    simp [rotationDirection, faceRotR, Real.cos_pi_div_two, Real.sin_pi_div_two]
  · rw [show rotationAxis BACK = ⟨0, 0, -1⟩ from rfl, applyAxisAngle_negzAxis,
      show Real.pi / 2 * rotationDirection BACK = -(Real.pi / 2) by
        simp [rotationDirection]]
    simp [faceRotR, Real.cos_pi_div_two, Real.sin_pi_div_two]

/-- Conjugating the quarter-turn rotation by the face-center translation has no
effect: the face center lies on the rotation axis. -/
theorem faceRot_pivot (f : Face) (p : Vec3) :
    ((p.sub (getFaceCenter f)).applyAxisAngle (rotationAxis f)
        (Real.pi / 2 * rotationDirection f)).add (getFaceCenter f) =
      p.applyAxisAngle (rotationAxis f) (Real.pi / 2 * rotationDirection f) := by
  cases f <;>
    simp only [applyAxisAngle_face, faceRotR, getFaceCenter, axisIdx, Vec3.sub, Vec3.add] <;>
    (ext <;> ring)

/-- The quarter-turn rotation is homogeneous in the vector argument. -/
theorem faceRotR_smul (f : Face) (s : ℝ) (v : Vec3) :
    faceRotR f (Vec3.smul s v) = Vec3.smul s (faceRotR f v) := by
  cases f <;> simp only [faceRotR, Vec3.smul] <;> (ext <;> ring)

/-! ### Exact integer model of grid indices -/

/-- Integer counterpart of `Vector3.getComponent`. -/
def IVec.comp (v : IVec) (i : ℕ) : ℤ :=
  if i = 0 then v.x else if i = 1 then v.y else v.z

/-- Integer counterpart of `faceRotR`. -/
def rotZface : Face → IVec → IVec
  | RIGHT, v => ⟨v.x, -v.z, v.y⟩
  | LEFT, v => ⟨v.x, -v.z, v.y⟩
  | TOP, v => ⟨v.z, v.y, -v.x⟩
  | BOTTOM, v => ⟨v.z, v.y, -v.x⟩
  | FRONT, v => ⟨-v.y, v.x, v.z⟩
  | BACK, v => ⟨-v.y, v.x, v.z⟩

/-- Exact layer membership of a grid index. -/
def inLayerZ (f : Face) (v : IVec) : Prop := v.comp (axisIdx f) = layerValueZ f

instance inLayerZ.decPred (f : Face) : DecidablePred (inLayerZ f) := fun v => by
  unfold inLayerZ; infer_instance

/-- Integer model of one committed quarter turn acting on a single grid index. -/
def turnZ (f : Face) (v : IVec) : IVec := if inLayerZ f v then rotZface f v else v

/-- Grid index with all components in `{-1, 0, 1}`. -/
def Small (v : IVec) : Prop :=
  (v.x = -1 ∨ v.x = 0 ∨ v.x = 1) ∧ (v.y = -1 ∨ v.y = 0 ∨ v.y = 1) ∧
    (v.z = -1 ∨ v.z = 0 ∨ v.z = 1)

instance Small.decPred : DecidablePred Small := fun v => by
  unfold Small; infer_instance

theorem Small_rotZface (f : Face) (v : IVec) (h : Small v) : Small (rotZface f v) := by
  obtain ⟨hx, hy, hz⟩ := h
  cases f <;> (refine ⟨?_, ?_, ?_⟩ <;> simp only [rotZface] <;> omega)

theorem Small_turnZ (f : Face) (v : IVec) (h : Small v) : Small (turnZ f v) := by
  unfold turnZ
  split
  · exact Small_rotZface f v h
  · exact h

/-- A quarter turn never moves a grid index along the turn's own axis, hence
layer membership is invariant under the turn's own rotation. -/
theorem inLayerZ_rotZface (f : Face) (v : IVec) : inLayerZ f (rotZface f v) ↔ inLayerZ f v := by
  cases f <;> simp [inLayerZ, rotZface, IVec.comp, axisIdx]

theorem turnZ_four (f : Face) (v : IVec) : turnZ f (turnZ f (turnZ f (turnZ f v))) = v := by
  by_cases h : inLayerZ f v
  · have h1 : ∀ w : IVec, inLayerZ f w → turnZ f w = rotZface f w := fun w hw => if_pos hw
    have h2 : ∀ w : IVec, inLayerZ f w → inLayerZ f (rotZface f w) := fun w hw =>
      (inLayerZ_rotZface f w).mpr hw
    rw [h1 _ h, h1 _ (h2 _ h), h1 _ (h2 _ (h2 _ h)), h1 _ (h2 _ (h2 _ (h2 _ h)))]
    cases f <;> (ext <;> simp [rotZface])
  · simp only [turnZ, if_neg h]

/-! ### Bridges between the real embedding and the integer model -/

theorem faceRotR_ofInt (f : Face) (w : IVec) :
    faceRotR f (Vec3.ofInt w) = Vec3.ofInt (rotZface f w) := by
  cases f <;> simp [faceRotR, rotZface, Vec3.ofInt]

theorem int_sub_abs_lt_eps (a b : ℤ) : |(a : ℝ) - (b : ℝ)| < EPSILON ↔ a = b := by
  constructor
  · intro h
    have h1 : |(a : ℝ) - (b : ℝ)| < 1 := lt_trans h (by norm_num [EPSILON])
    have h2 : ((a - b : ℤ) : ℝ) = (a : ℝ) - (b : ℝ) := by push_cast; ring
    rw [← h2, ← Int.cast_abs] at h1
    have h3 : |a - b| < (1 : ℤ) := by exact_mod_cast h1
    rw [abs_lt] at h3
    omega
  · rintro rfl
    simp only [sub_self, abs_zero]
    norm_num [EPSILON]

/-- The source's epsilon membership test, on an exactly integer grid index,
is exact layer membership. -/
theorem layerTest_ofInt (f : Face) (w : IVec) :
    (|(Vec3.ofInt w).getComponent (axisIdx f) - layerValue f| < EPSILON) ↔ inLayerZ f w := by
  have h1 : ∀ a b : ℤ, |(a : ℝ) - (b : ℝ)| < EPSILON ↔ a = b := int_sub_abs_lt_eps
  cases f
  · simpa [Vec3.getComponent, Vec3.ofInt, axisIdx, layerValue, inLayerZ, IVec.comp,
      layerValueZ] using h1 w.y 1
  · simpa [Vec3.getComponent, Vec3.ofInt, axisIdx, layerValue, inLayerZ, IVec.comp,
      layerValueZ] using h1 w.x 1
  · simpa [Vec3.getComponent, Vec3.ofInt, axisIdx, layerValue, inLayerZ, IVec.comp,
      layerValueZ] using h1 w.y (-1)
  · simpa [Vec3.getComponent, Vec3.ofInt, axisIdx, layerValue, inLayerZ, IVec.comp,
      layerValueZ] using h1 w.x (-1)
  · simpa [Vec3.getComponent, Vec3.ofInt, axisIdx, layerValue, inLayerZ, IVec.comp,
      layerValueZ] using h1 w.z 1
  · simpa [Vec3.getComponent, Vec3.ofInt, axisIdx, layerValue, inLayerZ, IVec.comp,
      layerValueZ] using h1 w.z (-1)

/-- One snapped component, when the input is exactly an integer, is that integer. -/
theorem snap_comp_int (r : ℝ) (n : ℤ) (h : r = (n : ℝ)) :
    (if |r| < EPSILON then (0 : ℝ) else Real.sign r * ((round |r| : ℤ) : ℝ)) = r := by
  subst h
  by_cases hn : n = 0
  · subst hn
    norm_num [EPSILON]
  · have h0 : (1 : ℤ) ≤ |n| := Int.one_le_abs hn
    have h1 : (1 : ℝ) ≤ |(n : ℝ)| := by
      rw [← Int.cast_abs]
      exact_mod_cast h0
    rw [if_neg (by push_neg; linarith [show EPSILON ≤ 1 by norm_num [EPSILON]])]
    have hne : (n : ℝ) ≠ 0 := fun h0 => hn (by exact_mod_cast h0)
    rcases lt_or_gt_of_ne hne with hlt | hgt
    · rw [Real.sign_of_neg hlt, abs_of_neg hlt, ← Int.cast_neg, round_intCast]
      push_cast
      ring
    · rw [Real.sign_of_pos hgt, abs_of_pos hgt, round_intCast, one_mul]

/-- One snapped component of a `{-1,0,1}` integer scaled by `1` or by
`1 + CUBE_GAP` recovers the integer (this is where the position snapping of
the main variant discards the gap). -/
theorem snap_comp_scaled (s : ℝ) (n : ℤ) (hs : s = 1 ∨ s = 1 + CUBE_GAP)
    (hn : n = -1 ∨ n = 0 ∨ n = 1) :
    (if |s * (n : ℝ)| < EPSILON then (0 : ℝ)
      else Real.sign (s * (n : ℝ)) * ((round |s * (n : ℝ)| : ℤ) : ℝ)) = (n : ℝ) := by
  rcases hs with rfl | rfl
  · rw [one_mul]
    exact snap_comp_int _ n rfl
  · rcases hn with rfl | rfl | rfl
    · have hv : (1 + CUBE_GAP) * ((-1 : ℤ) : ℝ) = -(1 + CUBE_GAP) := by push_cast; ring
      rw [hv]
      have hneg : (0 : ℝ) < 1 + CUBE_GAP := by norm_num [CUBE_GAP]
      rw [if_neg (by rw [abs_neg, abs_of_pos hneg]; norm_num [CUBE_GAP, EPSILON]),
        Real.sign_of_neg (by linarith), abs_neg, abs_of_pos hneg]
      have hround : round (1 + CUBE_GAP) = 1 := by
        rw [round_eq]
        norm_num [CUBE_GAP]
      rw [hround]
      push_cast
      ring
    · have hv : (1 + CUBE_GAP) * ((0 : ℤ) : ℝ) = 0 := by push_cast; ring
      rw [hv]
      norm_num [EPSILON]
    · have hv : (1 + CUBE_GAP) * ((1 : ℤ) : ℝ) = 1 + CUBE_GAP := by push_cast; ring
      rw [hv]
      have hpos : (0 : ℝ) < 1 + CUBE_GAP := by norm_num [CUBE_GAP]
      rw [if_neg (by rw [abs_of_pos hpos]; norm_num [CUBE_GAP, EPSILON]),
        Real.sign_of_pos hpos, abs_of_pos hpos]
      have hround : round (1 + CUBE_GAP) = 1 := by
        rw [round_eq]
        norm_num [CUBE_GAP]
      rw [hround]
      push_cast
      ring

theorem snapToGrid_ofInt (w : IVec) : snapToGrid (Vec3.ofInt w) = Vec3.ofInt w := by
  unfold snapToGrid Vec3.ofInt
  ext
  · exact snap_comp_int _ w.x rfl
  · exact snap_comp_int _ w.y rfl
  · exact snap_comp_int _ w.z rfl

theorem snapToGrid_smul_small (s : ℝ) (hs : s = 1 ∨ s = 1 + CUBE_GAP) (w : IVec)
    (hw : Small w) : snapToGrid (Vec3.smul s (Vec3.ofInt w)) = Vec3.ofInt w := by
  obtain ⟨hx, hy, hz⟩ := hw
  unfold snapToGrid Vec3.smul Vec3.ofInt
  ext
  · exact snap_comp_scaled s w.x hs hx
  · exact snap_comp_scaled s w.y hs hy
  · exact snap_comp_scaled s w.z hs hz

/-- Every component of a snapped vector is an integer. -/
theorem snapToGrid_int_valued (v : Vec3) : ∃ w : IVec, snapToGrid v = Vec3.ofInt w := by
  have comp : ∀ r : ℝ, ∃ n : ℤ,
      (if |r| < EPSILON then (0 : ℝ) else Real.sign r * ((round |r| : ℤ) : ℝ)) = (n : ℝ) := by
    intro r
    by_cases hc : |r| < EPSILON
    · exact ⟨0, by rw [if_pos hc]; norm_num⟩
    · rw [if_neg hc]
      have hr : r ≠ 0 := by
        intro h0
        exact hc (by rw [h0, abs_zero]; norm_num [EPSILON])
      rcases lt_or_gt_of_ne hr with hlt | hgt
      · exact ⟨-(round |r|), by rw [Real.sign_of_neg hlt]; push_cast; ring⟩
      · exact ⟨round |r|, by rw [Real.sign_of_pos hgt, one_mul]⟩
  obtain ⟨nx, hx⟩ := comp v.x
  obtain ⟨ny, hy⟩ := comp v.y
  obtain ⟨nz, hz⟩ := comp v.z
  exact ⟨⟨nx, ny, nz⟩, by unfold snapToGrid Vec3.ofInt; ext <;> simp [hx, hy, hz]⟩

theorem Vec3.smul_one (v : Vec3) : Vec3.smul 1 v = v := by
  unfold Vec3.smul
  ext <;> ring

/-! ### List-level lemmas about the layer selector and the rotation map -/

/-- `getCubiesInLayer` as a filtered enumeration. -/
theorem getCubiesInLayer_repr (cubies : List CubiePosition) (f : Face) :
    getCubiesInLayer cubies f =
      (cubies.enum.filter fun pr =>
          |pr.2.indices.getComponent (axisIdx f) - layerValue f| < EPSILON).map
        fun pr => ((pr.1 : ℕ) : ℤ) := by
  unfold getCubiesInLayer
  rw [List.mapIdx_eq_enum_map, List.filter_map]
  have hfilter : ∀ q1 : ℕ × CubiePosition → Bool, (∀ pr, q1 pr = decide
      (|pr.2.indices.getComponent (axisIdx f) - layerValue f| < EPSILON)) →
      cubies.enum.filter q1 = cubies.enum.filter fun pr =>
        |pr.2.indices.getComponent (axisIdx f) - layerValue f| < EPSILON := by
    intro q1 hq
    apply List.filter_congr
    intro pr _
    rw [hq]
  rw [hfilter _ ?hside]
  case hside =>
    intro pr
    by_cases hc : |pr.2.indices.getComponent (axisIdx f) - layerValue f| < EPSILON
    · simp [Function.uncurry, hc]
    · simp [Function.uncurry, hc]
  apply List.map_congr_left
  intro pr hpr
  have hc := List.of_mem_filter hpr
  simp only [decide_eq_true_eq] at hc
  simp [Function.uncurry, hc]

theorem getCubiesInLayer_length (cubies : List CubiePosition) (f : Face) :
    (getCubiesInLayer cubies f).length =
      cubies.countP fun c =>
        decide (|c.indices.getComponent (axisIdx f) - layerValue f| < EPSILON) := by
  rw [getCubiesInLayer_repr, List.length_map, ← List.countP_eq_length_filter]
  conv_rhs => rw [← List.enum_map_snd cubies]
  rw [List.countP_map]
  rfl

theorem getCubiesInLayer_nodup (cubies : List CubiePosition) (f : Face) :
    (getCubiesInLayer cubies f).Nodup := by
  rw [getCubiesInLayer_repr]
  have h2 : ((cubies.enum.filter fun pr =>
      |pr.2.indices.getComponent (axisIdx f) - layerValue f| < EPSILON).map Prod.fst).Nodup := by
    have hsub := (List.filter_sublist (l := cubies.enum)
      (p := fun pr => decide
        (|pr.2.indices.getComponent (axisIdx f) - layerValue f| < EPSILON))).map Prod.fst
    rw [List.enum_map_fst] at hsub
    exact (List.nodup_range _).sublist hsub
  have hcomp : (fun pr : ℕ × CubiePosition => ((pr.1 : ℕ) : ℤ)) =
      (fun n : ℕ => (n : ℤ)) ∘ Prod.fst := rfl
  rw [hcomp, ← List.map_map]
  exact h2.map Nat.cast_injective

theorem getCubiesInLayer_mem (cubies : List CubiePosition) (f : Face) (i : ℕ) :
    ((i : ℤ) ∈ getCubiesInLayer cubies f) ↔
      ∃ h : i < cubies.length,
        |(cubies.get ⟨i, h⟩).indices.getComponent (axisIdx f) - layerValue f| < EPSILON := by
  rw [getCubiesInLayer_repr]
  simp only [List.mem_map, List.mem_filter]
  constructor
  · rintro ⟨⟨j, c⟩, ⟨hmem, htest⟩, hcast⟩
    have h1 : j = i := by exact_mod_cast hcast
    subst h1
    have h2 := List.mem_enum_iff_get?.mp hmem
    rw [List.get?_eq_some] at h2
    obtain ⟨h3, h4⟩ := h2
    refine ⟨h3, ?_⟩
    rw [h4]
    simpa using htest
  · rintro ⟨h, htest⟩
    refine ⟨(i, cubies.get ⟨i, h⟩), ⟨List.mem_enum_iff_get?.mpr ?_, by simpa using htest⟩, rfl⟩
    rw [List.get?_eq_some]
    exact ⟨h, rfl⟩

theorem calculateLayerRotation_length (cubies : List CubiePosition) (face : Face) (angle : ℝ) :
    (calculateLayerRotation cubies face angle).length = cubies.length := by
  unfold calculateLayerRotation
  exact List.length_mapIdx

theorem calculateLayerRotation_get (cubies : List CubiePosition) (face : Face) (angle : ℝ)
    (i : ℕ) (h : i < cubies.length)
    (h2 : i < (calculateLayerRotation cubies face angle).length) :
    (calculateLayerRotation cubies face angle).get ⟨i, h2⟩ =
      if ¬ ((i : ℤ) ∈ getCubiesInLayer cubies face) then cubies.get ⟨i, h⟩
      else
        { cubies.get ⟨i, h⟩ with
          position := (((cubies.get ⟨i, h⟩).position.sub (getFaceCenter face)).applyAxisAngle
            (rotationAxis face) (angle * rotationDirection face)).add (getFaceCenter face)
          indices := (cubies.get ⟨i, h⟩).indices.applyAxisAngle (rotationAxis face)
            (angle * rotationDirection face)
          quaternion := (cubies.get ⟨i, h⟩).quaternion.premultiply
            (Quat.setFromAxisAngle (rotationAxis face) (angle * rotationDirection face)) } := by
  unfold calculateLayerRotation
  exact List.get_mapIdx cubies _ i h

theorem rotateLayer_length (cubies : List CubiePosition) (face : Face) :
    (rotateLayer cubies face).length = cubies.length := by
  unfold rotateLayer
  rw [List.length_map, calculateLayerRotation_length]

theorem rotateLayer_get (cubies : List CubiePosition) (face : Face) (i : ℕ)
    (h2 : i < (rotateLayer cubies face).length)
    (h3 : i < (calculateLayerRotation cubies face (Real.pi / 2)).length) :
    (rotateLayer cubies face).get ⟨i, h2⟩ =
      { (calculateLayerRotation cubies face (Real.pi / 2)).get ⟨i, h3⟩ with
        position := snapToGrid
          (((calculateLayerRotation cubies face (Real.pi / 2)).get ⟨i, h3⟩).position)
        indices := snapToGrid
          (((calculateLayerRotation cubies face (Real.pi / 2)).get ⟨i, h3⟩).indices) } := by
  unfold rotateLayer
  exact List.get_map _

/-! ### The permutation invariant -/

/-- The grid indices of `cubies` are exactly the integer lattice list `l`. -/
def IdxInv (cubies : List CubiePosition) (l : List IVec) : Prop :=
  cubies.map (·.indices) = l.map Vec3.ofInt

/-- The world positions of `cubies` are the lattice list `l` scaled by `s`. -/
def PosInv (cubies : List CubiePosition) (l : List IVec) (s : ℝ) : Prop :=
  cubies.map (·.position) = l.map fun v => Vec3.smul s (Vec3.ofInt v)

theorem IdxInv.length {cubies : List CubiePosition} {l : List IVec} (h : IdxInv cubies l) :
    cubies.length = l.length := by
  have h1 := congrArg List.length h
  simpa using h1

theorem IdxInv.get_indices {cubies : List CubiePosition} {l : List IVec} (h : IdxInv cubies l)
    (i : ℕ) (hi : i < cubies.length) (hi2 : i < l.length) :
    (cubies.get ⟨i, hi⟩).indices = Vec3.ofInt (l.get ⟨i, hi2⟩) := by
  have h1 : (cubies.map (·.indices))[i]? = (l.map Vec3.ofInt)[i]? := by rw [h]
  rw [List.getElem?_map, List.getElem?_map, List.getElem?_eq_getElem hi,
    List.getElem?_eq_getElem hi2] at h1
  simpa [List.get_eq_getElem] using h1

theorem PosInv.get_position {cubies : List CubiePosition} {l : List IVec} {s : ℝ}
    (h : PosInv cubies l s) (i : ℕ) (hi : i < cubies.length) (hi2 : i < l.length) :
    (cubies.get ⟨i, hi⟩).position = Vec3.smul s (Vec3.ofInt (l.get ⟨i, hi2⟩)) := by
  have h1 : (cubies.map (·.position))[i]? = (l.map fun v => Vec3.smul s (Vec3.ofInt v))[i]? := by
    rw [h]
  rw [List.getElem?_map, List.getElem?_map, List.getElem?_eq_getElem hi,
    List.getElem?_eq_getElem hi2] at h1
  simpa [List.get_eq_getElem] using h1

/-- Under `IdxInv`, the engine's epsilon layer membership coincides with exact
integer layer membership. -/
theorem getCubiesInLayer_mem_ofInv {cubies : List CubiePosition} {l : List IVec}
    (hidx : IdxInv cubies l) (f : Face) (i : ℕ) (hi : i < cubies.length) (hi2 : i < l.length) :
    ((i : ℤ) ∈ getCubiesInLayer cubies f) ↔ inLayerZ f (l.get ⟨i, hi2⟩) := by
  rw [getCubiesInLayer_mem]
  constructor
  · rintro ⟨h, htest⟩
    rw [hidx.get_indices i h hi2] at htest
    exact (layerTest_ofInt f _).mp htest
  · intro hz
    exact ⟨hi, by rw [hidx.get_indices i hi hi2]; exact (layerTest_ofInt f _).mpr hz⟩

theorem rotateLayer_step_idx {cubies : List CubiePosition} {l : List IVec} (f : Face)
    (hidx : IdxInv cubies l) : IdxInv (rotateLayer cubies f) (l.map (turnZ f)) := by
  unfold IdxInv
  apply List.ext_get
  · simp [rotateLayer_length, hidx.length]
  intro i h1 h2
  have hi : i < cubies.length := by
    simpa [rotateLayer_length] using h1
  have hi2 : i < l.length := hidx.length ▸ hi
  have hcalc : i < (calculateLayerRotation cubies f (Real.pi / 2)).length := by
    rwa [calculateLayerRotation_length]
  rw [List.get_map, List.get_map,
    rotateLayer_get cubies f i (by rwa [rotateLayer_length]) hcalc,
    calculateLayerRotation_get cubies f (Real.pi / 2) i hi hcalc, List.get_map]
  by_cases hmem : (i : ℤ) ∈ getCubiesInLayer cubies f
  · rw [if_neg (not_not_intro hmem)]
    dsimp only
    rw [hidx.get_indices i hi hi2, applyAxisAngle_face, faceRotR_ofInt, snapToGrid_ofInt]
    congr 1
    rw [turnZ, if_pos ((getCubiesInLayer_mem_ofInv hidx f i hi hi2).mp hmem)]
  · rw [if_pos hmem]
    dsimp only
    rw [hidx.get_indices i hi hi2, snapToGrid_ofInt]
    congr 1
    rw [turnZ, if_neg (fun hz => hmem ((getCubiesInLayer_mem_ofInv hidx f i hi hi2).mpr hz))]

theorem rotateLayer_step_pos {cubies : List CubiePosition} {l : List IVec} {s : ℝ} (f : Face)
    (hidx : IdxInv cubies l) (hpos : PosInv cubies l s) (hsm : ∀ v ∈ l, Small v)
    (hs : s = 1 ∨ s = 1 + CUBE_GAP) :
    PosInv (rotateLayer cubies f) (l.map (turnZ f)) 1 := by
  unfold PosInv
  apply List.ext_get
  · simp [rotateLayer_length, hidx.length]
  intro i h1 h2
  have hi : i < cubies.length := by
    simpa [rotateLayer_length] using h1
  have hi2 : i < l.length := hidx.length ▸ hi
  have hcalc : i < (calculateLayerRotation cubies f (Real.pi / 2)).length := by
    rwa [calculateLayerRotation_length]
  have hsmall : Small (l.get ⟨i, hi2⟩) := hsm _ (List.get_mem l i hi2)
  rw [List.get_map, List.get_map,
    rotateLayer_get cubies f i (by rwa [rotateLayer_length]) hcalc,
    calculateLayerRotation_get cubies f (Real.pi / 2) i hi hcalc, List.get_map]
  by_cases hmem : (i : ℤ) ∈ getCubiesInLayer cubies f
  · rw [if_neg (not_not_intro hmem)]
    dsimp only
    rw [hpos.get_position i hi hi2, faceRot_pivot, applyAxisAngle_face, faceRotR_smul, faceRotR_ofInt,
      snapToGrid_smul_small s hs _ (Small_rotZface f _ hsmall), Vec3.smul_one,
      turnZ, if_pos ((getCubiesInLayer_mem_ofInv hidx f i hi hi2).mp hmem)]
  · rw [if_pos hmem]
    dsimp only
    rw [hpos.get_position i hi hi2, snapToGrid_smul_small s hs _ hsmall, Vec3.smul_one,
      turnZ, if_neg (fun hz => hmem ((getCubiesInLayer_mem_ofInv hidx f i hi hi2).mpr hz))]

theorem SmallAll_map_turnZ {l : List IVec} (f : Face) (h : ∀ v ∈ l, Small v) :
    ∀ v ∈ l.map (turnZ f), Small v := by
  intro v hv
  obtain ⟨w, hw, rfl⟩ := List.mem_map.mp hv
  exact Small_turnZ f w (h w hw)

/-- Integer model of a whole turn sequence. -/
def turnsZ (fs : List Face) (l : List IVec) : List IVec :=
  fs.foldl (fun t f => t.map (turnZ f)) l

theorem master_fold (fs : List Face) :
    ∀ (cubies : List CubiePosition) (l : List IVec) (s : ℝ),
      IdxInv cubies l → PosInv cubies l s → (∀ v ∈ l, Small v) →
      (s = 1 ∨ s = 1 + CUBE_GAP) →
      IdxInv (fs.foldl rotateLayer cubies) (turnsZ fs l) ∧
        PosInv (fs.foldl rotateLayer cubies) (turnsZ fs l) (if fs.isEmpty then s else 1) ∧
        ∀ v ∈ turnsZ fs l, Small v := by
  induction fs with
  | nil =>
    intro cubies l s h1 h2 h3 _
    simpa [turnsZ] using ⟨h1, h2, h3⟩
  | cons f fs ih =>
    intro cubies l s h1 h2 h3 hs
    have hstep1 := rotateLayer_step_idx f h1
    have hstep2 := rotateLayer_step_pos f h1 h2 h3 hs
    have hstep3 := SmallAll_map_turnZ f h3
    have hrec := ih (rotateLayer cubies f) (l.map (turnZ f)) 1 hstep1 hstep2 hstep3 (Or.inl rfl)
    simp only [turnsZ, List.foldl_cons, List.isEmpty_cons] at hrec ⊢
    obtain ⟨a, b, c⟩ := hrec
    rw [ite_self] at b
    exact ⟨a, b, c⟩

theorem initIdxInv : IdxInv initialCubiePositions getTargetPositions := by
  unfold IdxInv initialCubiePositions
  rw [List.map_map]
  rfl

theorem initPosInv : PosInv initialCubiePositions getTargetPositions (CUBE_SIZE + CUBE_GAP) := by
  unfold PosInv initialCubiePositions
  rw [List.map_map]
  apply List.map_congr_left
  intro p _
  dsimp only [Function.comp]
  unfold Vec3.smul Vec3.ofInt
  ext <;> (dsimp only; ring)

theorem initSmall : ∀ v ∈ getTargetPositions, Small v := by decide

/-- The full invariant along any committed turn sequence starting solved. -/
theorem applyTurns_inv (fs : List Face) :
    IdxInv (applyTurns fs) (turnsZ fs getTargetPositions) ∧
      PosInv (applyTurns fs) (turnsZ fs getTargetPositions)
        (if fs.isEmpty then CUBE_SIZE + CUBE_GAP else 1) ∧
      ∀ v ∈ turnsZ fs getTargetPositions, Small v := by
  have h := master_fold fs initialCubiePositions getTargetPositions (CUBE_SIZE + CUBE_GAP)
    initIdxInv initPosInv initSmall (Or.inr (by norm_num [CUBE_SIZE]))
  exact h

/-- The integer turn model permutes the canonical solved multiset. -/
theorem turnZ_perm_face (f : Face) :
    (getTargetPositions.map (turnZ f) : Multiset IVec) = (getTargetPositions : Multiset IVec) := by
  cases f <;> decide

theorem turnsZ_perm (fs : List Face) :
    ∀ l : List IVec, (l : Multiset IVec) = (getTargetPositions : Multiset IVec) →
      (turnsZ fs l : Multiset IVec) = (getTargetPositions : Multiset IVec) := by
  induction fs with
  | nil => intro l hl; simpa [turnsZ] using hl
  | cons f fs ih =>
    intro l hl
    simp only [turnsZ, List.foldl_cons] at ih ⊢
    apply ih
    calc (l.map (turnZ f) : Multiset IVec)
        = Multiset.map (turnZ f) (l : Multiset IVec) := by simp
      _ = Multiset.map (turnZ f) (getTargetPositions : Multiset IVec) := by rw [hl]
      _ = (getTargetPositions.map (turnZ f) : Multiset IVec) := by simp
      _ = (getTargetPositions : Multiset IVec) := turnZ_perm_face f

theorem ofInt_injective : Function.Injective Vec3.ofInt := by
  intro a b h
  unfold Vec3.ofInt at h
  injection h with hx hy hz
  ext
  · exact_mod_cast hx
  · exact_mod_cast hy
  · exact_mod_cast hz

theorem length_initial : initialCubiePositions.length = 26 := by
  unfold initialCubiePositions
  rw [List.length_map]
  rfl

/-! ### Claim theorems -/

/-- C1: starting from the solved configuration, after every finite sequence of
committed quarter turns (`rotateLayer`), the multiset of grid indices equals
the canonical solved set `getTargetPositions` (the lattice points of
`{-1,0,1}³` minus the origin); in particular the grid indices are pairwise
distinct. -/
theorem claim_permutation_invariant (fs : List Face) :
    (((applyTurns fs).map (·.indices) : List Vec3) : Multiset Vec3) =
        ((getTargetPositions.map Vec3.ofInt : List Vec3) : Multiset Vec3) ∧
      ((applyTurns fs).map (·.indices)).Nodup := by
  obtain ⟨hidx, -, -⟩ := applyTurns_inv fs
  unfold IdxInv at hidx
  have hperm : (turnsZ fs getTargetPositions : Multiset IVec) =
      (getTargetPositions : Multiset IVec) := turnsZ_perm fs getTargetPositions rfl
  constructor
  · rw [hidx]
    calc (((turnsZ fs getTargetPositions).map Vec3.ofInt : List Vec3) : Multiset Vec3)
        = Multiset.map Vec3.ofInt (turnsZ fs getTargetPositions : Multiset IVec) := by simp
      _ = Multiset.map Vec3.ofInt (getTargetPositions : Multiset IVec) := by rw [hperm]
      _ = ((getTargetPositions.map Vec3.ofInt : List Vec3) : Multiset Vec3) := by simp
  · rw [hidx]
    apply List.Nodup.map ofInt_injective
    have hnd : getTargetPositions.Nodup := by decide
    have hp : (turnsZ fs getTargetPositions).Perm getTargetPositions :=
      Multiset.coe_eq_coe.mp hperm
    exact hp.nodup_iff.mpr hnd

/-- C5: applying the same face's committed quarter turn (`rotateLayer`) four
times in a row restores every cubie's grid index to its value before the four
turns, on any state reachable from the solved cube. -/
theorem claim_four_turns_identity (fs : List Face) (f : Face) :
    (applyTurns (fs ++ [f, f, f, f])).map (·.indices) = (applyTurns fs).map (·.indices) := by
  obtain ⟨hidx2, -, -⟩ := applyTurns_inv (fs ++ [f, f, f, f])
  obtain ⟨hidx1, -, -⟩ := applyTurns_inv fs
  unfold IdxInv at hidx1 hidx2
  rw [hidx1, hidx2]
  congr 1
  unfold turnsZ
  rw [List.foldl_append]
  simp only [List.foldl_cons, List.foldl_nil]
  rw [List.map_map, List.map_map, List.map_map]
  exact (List.map_congr_left fun v _ => turnZ_four f v).trans (List.map_id' _)

/-- C7 counterexample: after one committed RIGHT quarter turn from the solved
state, there is a cubie whose stored position is not its grid index scaled by
`CUBE_SIZE + CUBE_GAP` (the commit snapped the gap away). -/
theorem claim_position_gap_counterexample :
    ¬ ∀ c ∈ applyTurns [Face.RIGHT], c.position = Vec3.smul (CUBE_SIZE + CUBE_GAP) c.indices := by
  intro hall
  obtain ⟨hidx, hpos, -⟩ := applyTurns_inv [Face.RIGHT]
  simp only [List.isEmpty_cons, Bool.false_eq_true, if_false] at hpos
  have hlen : (applyTurns [Face.RIGHT]).length = 26 := by
    show (rotateLayer initialCubiePositions Face.RIGHT).length = 26
    rw [rotateLayer_length, length_initial]
  have hlen2 : (turnsZ [Face.RIGHT] getTargetPositions).length = 26 := by decide
  have h0 : (0 : ℕ) < (applyTurns [Face.RIGHT]).length := by omega
  have h02 : (0 : ℕ) < (turnsZ [Face.RIGHT] getTargetPositions).length := by omega
  have hc := hall _ (List.get_mem (applyTurns [Face.RIGHT]) 0 h0)
  rw [hpos.get_position 0 h0 h02, hidx.get_indices 0 h0 h02] at hc
  have hw : (turnsZ [Face.RIGHT] getTargetPositions).get ⟨0, h02⟩ = ⟨-1, -1, -1⟩ := rfl
  rw [hw] at hc
  have hx := congrArg Vec3.x hc
  simp only [Vec3.smul, Vec3.ofInt] at hx
  norm_num [CUBE_SIZE, CUBE_GAP] at hx

/-- C7 (amended): the gap is nonnegative; at startup every cubie's stored
position equals its grid index scaled by `CUBE_SIZE + CUBE_GAP`; but after any
committed quarter turn the main variant's position snapping discards the gap,
leaving every cubie's stored position equal to its grid index scaled by
`CUBE_SIZE` alone. -/
theorem claim_position_consistency_amended :
    0 ≤ CUBE_GAP ∧
      (∀ c ∈ initialCubiePositions, c.position = Vec3.smul (CUBE_SIZE + CUBE_GAP) c.indices) ∧
      ∀ (fs : List Face) (f : Face), ∀ c ∈ applyTurns (fs ++ [f]),
        c.position = Vec3.smul CUBE_SIZE c.indices := by
  refine ⟨by norm_num [CUBE_GAP], ?_, ?_⟩
  · intro c hc
    obtain ⟨p, -, rfl⟩ := List.mem_map.mp hc
    dsimp only
    unfold Vec3.smul
    ext <;> (dsimp only; ring)
  · intro fs f c hc
    obtain ⟨hidx, hpos, -⟩ := applyTurns_inv (fs ++ [f])
    have hne : ((fs ++ [f]).isEmpty) = false := by
      simp
    rw [hne] at hpos
    simp only [Bool.false_eq_true, if_false] at hpos
    obtain ⟨i, hi⟩ := List.mem_iff_get.mp hc
    obtain ⟨iv, hiv⟩ := i
    have hi2 : iv < (turnsZ (fs ++ [f]) getTargetPositions).length := hidx.length ▸ hiv
    rw [← hi, hpos.get_position iv hiv hi2, hidx.get_indices iv hiv hi2]
    have h1 : CUBE_SIZE = (1 : ℝ) := by norm_num [CUBE_SIZE]
    rw [h1]

/-- C7 witness: the amended consistency applied to cubie 0 of the startup
state and to cubie 0 after one committed RIGHT turn. -/
theorem claim_position_consistency_amended_witness :
    (initialCubiePositions.get ⟨0, by rw [length_initial]; norm_num⟩ ∈ initialCubiePositions) ∧
      (initialCubiePositions.get ⟨0, by rw [length_initial]; norm_num⟩).position =
        Vec3.smul (CUBE_SIZE + CUBE_GAP)
          (initialCubiePositions.get ⟨0, by rw [length_initial]; norm_num⟩).indices ∧
      ((applyTurns ([] ++ [Face.RIGHT])).get
          ⟨0, by
            show 0 < (rotateLayer initialCubiePositions Face.RIGHT).length
            rw [rotateLayer_length, length_initial]; norm_num⟩ ∈
        applyTurns ([] ++ [Face.RIGHT])) ∧
      ((applyTurns ([] ++ [Face.RIGHT])).get
          ⟨0, by
            show 0 < (rotateLayer initialCubiePositions Face.RIGHT).length
            rw [rotateLayer_length, length_initial]; norm_num⟩).position =
        Vec3.smul CUBE_SIZE
          ((applyTurns ([] ++ [Face.RIGHT])).get
            ⟨0, by
              show 0 < (rotateLayer initialCubiePositions Face.RIGHT).length
              rw [rotateLayer_length, length_initial]; norm_num⟩).indices := by
  refine ⟨List.get_mem _ 0 _, ?_, List.get_mem _ 0 _, ?_⟩
  · exact claim_position_consistency_amended.2.1 _ (List.get_mem _ 0 _)
  · exact claim_position_consistency_amended.2.2 [] Face.RIGHT _ (List.get_mem _ 0 _)

/-- C8: `snapToGrid` rounds each component independently by the stated rule, is
idempotent on every vector, and is the identity on every integer-valued
vector. -/
theorem claim_snap_idempotent (v : Vec3) :
    ((snapToGrid v).x = (if |v.x| < EPSILON then 0 else Real.sign v.x * (round |v.x| : ℤ)) ∧
        (snapToGrid v).y = (if |v.y| < EPSILON then 0 else Real.sign v.y * (round |v.y| : ℤ)) ∧
        (snapToGrid v).z = (if |v.z| < EPSILON then 0 else Real.sign v.z * (round |v.z| : ℤ))) ∧
      snapToGrid (snapToGrid v) = snapToGrid v ∧
      ∀ a b c : ℤ, v = Vec3.ofInt ⟨a, b, c⟩ → snapToGrid v = v := by
  refine ⟨⟨rfl, rfl, rfl⟩, ?_, ?_⟩
  · obtain ⟨w, hw⟩ := snapToGrid_int_valued v
    rw [hw, snapToGrid_ofInt]
  · rintro a b c rfl
    exact snapToGrid_ofInt ⟨a, b, c⟩

/-- C8 witness: the integer vector `(3, -5, 0)` is fixed by `snapToGrid`. -/
theorem claim_snap_idempotent_witness :
    (⟨(3 : ℝ), (-5 : ℝ), (0 : ℝ)⟩ : Vec3) = Vec3.ofInt ⟨3, -5, 0⟩ ∧
      snapToGrid ⟨(3 : ℝ), (-5 : ℝ), (0 : ℝ)⟩ = ⟨(3 : ℝ), (-5 : ℝ), (0 : ℝ)⟩ := by
  have hEq : (⟨(3 : ℝ), (-5 : ℝ), (0 : ℝ)⟩ : Vec3) = Vec3.ofInt ⟨3, -5, 0⟩ := by
    unfold Vec3.ofInt
    norm_num
  exact ⟨hEq, (claim_snap_idempotent _).2.2 3 (-5) 0 hEq⟩

/-- The six faces, each once. -/
def allFaces : List Face := [TOP, RIGHT, BOTTOM, LEFT, FRONT, BACK]

theorem countP_layer_canonical (f : Face) :
    (getTargetPositions.countP fun w => decide (inLayerZ f w)) = 9 := by
  cases f <;> decide

/-- C4: on every valid cube state (grid indices a permutation of the 26
canonical lattice points), `getCubiesInLayer` returns exactly 9 pairwise
distinct cubie indices for each of the 6 faces, and the layer sizes over all 6
faces sum to 54. -/
theorem claim_layer_selector (cubies : List CubiePosition)
    (h : (cubies.map (·.indices)).Perm (getTargetPositions.map Vec3.ofInt)) :
    (∀ f : Face, (getCubiesInLayer cubies f).length = 9 ∧ (getCubiesInLayer cubies f).Nodup) ∧
      (allFaces.map fun f => (getCubiesInLayer cubies f).length).sum = 54 := by
  have hlen : ∀ f : Face, (getCubiesInLayer cubies f).length = 9 := by
    intro f
    rw [getCubiesInLayer_length]
    have h1 : (cubies.countP fun c =>
        decide (|c.indices.getComponent (axisIdx f) - layerValue f| < EPSILON)) =
        ((cubies.map (·.indices)).countP fun v =>
          decide (|v.getComponent (axisIdx f) - layerValue f| < EPSILON)) := by
      rw [List.countP_map]
      rfl
    rw [h1, h.countP_eq, List.countP_map]
    have h2 : (getTargetPositions.countP
        ((fun v => decide (|v.getComponent (axisIdx f) - layerValue f| < EPSILON)) ∘
          Vec3.ofInt)) =
        getTargetPositions.countP fun w => decide (inLayerZ f w) := by
      apply List.countP_congr
      intro w _
      simp only [Function.comp, decide_eq_true_eq]
      exact layerTest_ofInt f w
    rw [h2, countP_layer_canonical]
  refine ⟨fun f => ⟨hlen f, getCubiesInLayer_nodup cubies f⟩, ?_⟩
  simp only [allFaces, List.map_cons, List.map_nil, hlen, List.sum_cons, List.sum_nil]
  norm_num

/-- C4 witness: the solved state is valid, and its layer selector facts follow
by applying the theorem there. -/
theorem claim_layer_selector_witness :
    ((initialCubiePositions.map (·.indices)).Perm (getTargetPositions.map Vec3.ofInt)) ∧
      ((∀ f : Face, (getCubiesInLayer initialCubiePositions f).length = 9 ∧
          (getCubiesInLayer initialCubiePositions f).Nodup) ∧
        (allFaces.map fun f => (getCubiesInLayer initialCubiePositions f).length).sum = 54) := by
  have hp : (initialCubiePositions.map (·.indices)).Perm (getTargetPositions.map Vec3.ofInt) := by
    have h := initIdxInv
    unfold IdxInv at h
    rw [h]
  exact ⟨hp, claim_layer_selector initialCubiePositions hp⟩

theorem setFromAxisAngle_pair_x (angle : ℝ) :
    Quat.setFromAxisAngle (rotationAxis LEFT) (angle * rotationDirection LEFT) =
      Quat.setFromAxisAngle (rotationAxis RIGHT) (angle * rotationDirection RIGHT) := by
  unfold Quat.setFromAxisAngle rotationAxis rotationDirection
  ext <;> simp [mul_neg_one, neg_div, Real.sin_neg, Real.cos_neg]

theorem setFromAxisAngle_pair_y (angle : ℝ) :
    Quat.setFromAxisAngle (rotationAxis BOTTOM) (angle * rotationDirection BOTTOM) =
      Quat.setFromAxisAngle (rotationAxis TOP) (angle * rotationDirection TOP) := by
  unfold Quat.setFromAxisAngle rotationAxis rotationDirection
  ext <;> simp [mul_neg_one, neg_div, Real.sin_neg, Real.cos_neg]

theorem setFromAxisAngle_pair_z (angle : ℝ) :
    Quat.setFromAxisAngle (rotationAxis BACK) (angle * rotationDirection BACK) =
      Quat.setFromAxisAngle (rotationAxis FRONT) (angle * rotationDirection FRONT) := by
  unfold Quat.setFromAxisAngle rotationAxis rotationDirection
  ext <;> simp [mul_neg_one, neg_div, Real.sin_neg, Real.cos_neg]

/-- C10: in the main variant, each face's axis scaled by its direction sign is
a positive standard basis vector, and opposite faces build the identical
rotation quaternion — hence apply the identical spatial rotation — for any
angle argument. -/
theorem claim_axis_times_direction :
    (∀ f : Face, Vec3.smul (rotationDirection f) (rotationAxis f) = ⟨1, 0, 0⟩ ∨
        Vec3.smul (rotationDirection f) (rotationAxis f) = ⟨0, 1, 0⟩ ∨
        Vec3.smul (rotationDirection f) (rotationAxis f) = ⟨0, 0, 1⟩) ∧
      (∀ angle : ℝ,
        Quat.setFromAxisAngle (rotationAxis LEFT) (angle * rotationDirection LEFT) =
          Quat.setFromAxisAngle (rotationAxis RIGHT) (angle * rotationDirection RIGHT)) ∧
      (∀ angle : ℝ,
        Quat.setFromAxisAngle (rotationAxis BOTTOM) (angle * rotationDirection BOTTOM) =
          Quat.setFromAxisAngle (rotationAxis TOP) (angle * rotationDirection TOP)) ∧
      (∀ angle : ℝ,
        Quat.setFromAxisAngle (rotationAxis BACK) (angle * rotationDirection BACK) =
          Quat.setFromAxisAngle (rotationAxis FRONT) (angle * rotationDirection FRONT)) ∧
      (∀ (angle : ℝ) (v : Vec3),
        v.applyAxisAngle (rotationAxis LEFT) (angle * rotationDirection LEFT) =
          v.applyAxisAngle (rotationAxis RIGHT) (angle * rotationDirection RIGHT)) ∧
      (∀ (angle : ℝ) (v : Vec3),
        v.applyAxisAngle (rotationAxis BOTTOM) (angle * rotationDirection BOTTOM) =
          v.applyAxisAngle (rotationAxis TOP) (angle * rotationDirection TOP)) ∧
      ∀ (angle : ℝ) (v : Vec3),
        v.applyAxisAngle (rotationAxis BACK) (angle * rotationDirection BACK) =
          v.applyAxisAngle (rotationAxis FRONT) (angle * rotationDirection FRONT) := by
  refine ⟨?_, setFromAxisAngle_pair_x, setFromAxisAngle_pair_y, setFromAxisAngle_pair_z,
    ?_, ?_, ?_⟩
  · intro f
    cases f
    · exact Or.inr (Or.inl (by unfold Vec3.smul rotationAxis rotationDirection; ext <;> norm_num))
    · exact Or.inl (by unfold Vec3.smul rotationAxis rotationDirection; ext <;> norm_num)
    · exact Or.inr (Or.inl (by unfold Vec3.smul rotationAxis rotationDirection; ext <;> norm_num))
    · exact Or.inl (by unfold Vec3.smul rotationAxis rotationDirection; ext <;> norm_num)
    · exact Or.inr (Or.inr (by unfold Vec3.smul rotationAxis rotationDirection; ext <;> norm_num))
    · exact Or.inr (Or.inr (by unfold Vec3.smul rotationAxis rotationDirection; ext <;> norm_num))
  · intro angle v
    unfold Vec3.applyAxisAngle
    rw [setFromAxisAngle_pair_x]
  · intro angle v
    unfold Vec3.applyAxisAngle
    rw [setFromAxisAngle_pair_y]
  · intro angle v
    unfold Vec3.applyAxisAngle
    rw [setFromAxisAngle_pair_z]

/-- The pivot as the claim words it: the unit vector along the face's layer
axis, scaled by the face's layer value times `unitSize + gap`. -/
noncomputable def pivotSpec (f : Face) : Vec3 :=
  Vec3.smul (layerValue f * (CUBE_SIZE + CUBE_GAP))
    (if axisIdx f = 0 then ⟨1, 0, 0⟩ else if axisIdx f = 1 then ⟨0, 1, 0⟩ else ⟨0, 0, 1⟩)

theorem pivotSpec_eq_getFaceCenter (f : Face) : pivotSpec f = getFaceCenter f := by
  cases f <;>
    (unfold pivotSpec getFaceCenter axisIdx layerValue
     ext <;> simp [Vec3.smul])

/-- C3: for every cubie list, face and real angle, `calculateLayerRotation`
transforms exactly the cubies of the face's layer by: translating the position
by the negative of the face's pivot (`pivotSpec`), applying the axis-angle
rotation to the position and the grid-index vector, translating back, and
left-composing the rotation onto the orientation; cubies outside the layer are
returned unchanged.  (The embedding is a pure function, so the input list is
never mutated.) -/
theorem claim_rotation_transformer (cubies : List CubiePosition) (face : Face) (angle : ℝ)
    (i : ℕ) (h : i < cubies.length)
    (h2 : i < (calculateLayerRotation cubies face angle).length) :
    (calculateLayerRotation cubies face angle).get ⟨i, h2⟩ =
      if (i : ℤ) ∈ getCubiesInLayer cubies face then
        { cubies.get ⟨i, h⟩ with
          position := (((cubies.get ⟨i, h⟩).position.sub (pivotSpec face)).applyAxisAngle
            (rotationAxis face) (angle * rotationDirection face)).add (pivotSpec face)
          indices := (cubies.get ⟨i, h⟩).indices.applyAxisAngle (rotationAxis face)
            (angle * rotationDirection face)
          quaternion := Quat.multiply
            (Quat.setFromAxisAngle (rotationAxis face) (angle * rotationDirection face))
            (cubies.get ⟨i, h⟩).quaternion }
      else cubies.get ⟨i, h⟩ := by
  rw [calculateLayerRotation_get cubies face angle i h h2, pivotSpec_eq_getFaceCenter]
  by_cases hmem : (i : ℤ) ∈ getCubiesInLayer cubies face
  · rw [if_neg (not_not_intro hmem), if_pos hmem]
    rfl
  · rw [if_pos hmem, if_neg hmem]

/-- C3 witness: the characterization applied to the solved state, the RIGHT
face, angle `0.3`, cubie index `0`. -/
theorem claim_rotation_transformer_witness :
    (0 : ℕ) < initialCubiePositions.length ∧
      (0 : ℕ) < (calculateLayerRotation initialCubiePositions Face.RIGHT 0.3).length ∧
      (calculateLayerRotation initialCubiePositions Face.RIGHT 0.3).get
          ⟨0, by rw [calculateLayerRotation_length, length_initial]; norm_num⟩ =
        (if (0 : ℤ) ∈ getCubiesInLayer initialCubiePositions Face.RIGHT then
          { initialCubiePositions.get ⟨0, by rw [length_initial]; norm_num⟩ with
            position := (((initialCubiePositions.get
                ⟨0, by rw [length_initial]; norm_num⟩).position.sub
                (pivotSpec Face.RIGHT)).applyAxisAngle (rotationAxis Face.RIGHT)
                (0.3 * rotationDirection Face.RIGHT)).add (pivotSpec Face.RIGHT)
            indices := (initialCubiePositions.get
                ⟨0, by rw [length_initial]; norm_num⟩).indices.applyAxisAngle
                (rotationAxis Face.RIGHT) (0.3 * rotationDirection Face.RIGHT)
            quaternion := Quat.multiply
              (Quat.setFromAxisAngle (rotationAxis Face.RIGHT)
                (0.3 * rotationDirection Face.RIGHT))
              (initialCubiePositions.get
                ⟨0, by rw [length_initial]; norm_num⟩).quaternion }
        else initialCubiePositions.get ⟨0, by rw [length_initial]; norm_num⟩) := by
  refine ⟨by rw [length_initial]; norm_num,
    by rw [calculateLayerRotation_length, length_initial]; norm_num, ?_⟩
  exact claim_rotation_transformer initialCubiePositions Face.RIGHT 0.3 0
    (by rw [length_initial]; norm_num)
    (by rw [calculateLayerRotation_length, length_initial]; norm_num)

/-! ### Frame driver and animation state machine (main variant) -/

/-- `rotationSpeed` — the rotation duration of the main variant, in seconds. -/
noncomputable def rotationSpeed : ℝ := 0.85

/-- `cubeRotationSpeed` — idle-spin speed of the whole assembly. -/
noncomputable def cubeRotationSpeed : ℝ := 0.05

/-- The `rotationState` record of the main variant. -/
structure RotationState where
  isRotating : Bool
  currentFace : Option Face
  progress : ℝ
  sequenceIndex : ℕ
  inSequencePause : Bool
  inRotationPause : Bool

/-- Whole-engine state visible to one frame: authoritative cubie states, the
renderer-visible per-cubie transforms (the `cubieRefs`), the rotation state
and the idle-spin angles of the outer group. -/
structure FrameState where
  cubiePositions : List CubiePosition
  transforms : List (Vec3 × Quat)
  rotationState : RotationState
  groupRotX : ℝ
  groupRotY : ℝ

/-- Overwrite the transforms of the cubies listed in `layer` from `src`
(the `cubie.position.copy(...)`, `cubie.quaternion.copy(...)` loop). -/
noncomputable def updateTransforms (ts : List (Vec3 × Quat)) (layer : List ℤ)
    (src : List CubiePosition) : List (Vec3 × Quat) :=
  ts.mapIdx fun i t =>
    if (i : ℤ) ∈ layer then ((src.getD i default).position, (src.getD i default).quaternion)
    else t

/-- One invocation of the main variant's `useFrame` callback with elapsed time
`delta`.  React state updates are modelled by their combined effect at the end
of the callback (reads inside the callback see the pre-frame state); the
`setTimeout`-scheduled `startNextRotation` is an asynchronous event outside
the frame step. -/
noncomputable def frameStep (s : FrameState) (delta : ℝ) : FrameState :=
  let s1 := { s with groupRotY := s.groupRotY + delta * cubeRotationSpeed,
                     groupRotX := s.groupRotX + delta * (cubeRotationSpeed / 2) }
  match s1.rotationState.currentFace, s1.rotationState.isRotating with
  | some face, true =>
    let rotationDuration := rotationSpeed
    let newProgress := s1.rotationState.progress + delta / rotationDuration
    let progress := min newProgress 1
    let easedProgress := easeInOutCubic progress
    let angleToRotate := Real.pi / 2 * easedProgress
    if 1 ≤ progress then
      let finalPositions := rotateLayer s1.cubiePositions face
      let cubiesInLayer := getCubiesInLayer s1.cubiePositions face
      { s1 with
        cubiePositions := finalPositions
        transforms := updateTransforms s1.transforms cubiesInLayer finalPositions
        rotationState := { s1.rotationState with
          isRotating := false, inRotationPause := true, progress := 0 } }
    else
      let rotatedPositions := calculateLayerRotation s1.cubiePositions face angleToRotate
      let cubiesInLayer := getCubiesInLayer s1.cubiePositions face
      { s1 with
        transforms := updateTransforms s1.transforms cubiesInLayer rotatedPositions
        rotationState := { s1.rotationState with progress := newProgress } }
  | _, _ => s1

theorem updateTransforms_getD_notMem (ts : List (Vec3 × Quat)) (layer : List ℤ)
    (src : List CubiePosition) (i : ℕ) (hmem : (i : ℤ) ∉ layer) :
    (updateTransforms ts layer src).getD i default = ts.getD i default := by
  unfold updateTransforms
  by_cases hi : i < ts.length
  · rw [List.getD_eq_getElem?_getD, List.getD_eq_getElem?_getD,
      List.getElem?_eq_getElem (by rwa [List.length_mapIdx]), List.getElem?_eq_getElem hi]
    have h1 := List.get_mapIdx ts
      (fun i t => if (i : ℤ) ∈ layer then
        ((src.getD i default).position, (src.getD i default).quaternion) else t) i hi
    simp only [List.get_eq_getElem] at h1
    simp [h1, if_neg hmem]
  · rw [List.getD_eq_getElem?_getD, List.getD_eq_getElem?_getD,
      List.getElem?_eq_none (by rw [List.length_mapIdx]; omega),
      List.getElem?_eq_none (by omega)]

theorem updateTransforms_getD_mem (ts : List (Vec3 × Quat)) (layer : List ℤ)
    (src : List CubiePosition) (i : ℕ) (hi : i < ts.length) (hmem : (i : ℤ) ∈ layer) :
    (updateTransforms ts layer src).getD i default =
      ((src.getD i default).position, (src.getD i default).quaternion) := by
  unfold updateTransforms
  rw [List.getD_eq_getElem?_getD, List.getElem?_eq_getElem (by rwa [List.length_mapIdx])]
  have h1 := List.get_mapIdx ts
    (fun i t => if (i : ℤ) ∈ layer then
      ((src.getD i default).position, (src.getD i default).quaternion) else t) i hi
  simp only [List.get_eq_getElem] at h1
  simp [h1, if_pos hmem]

/-- Shared characterization of one frame while a rotation is active. -/
theorem frameStep_midturn (s : FrameState) (delta : ℝ) (face : Face)
    (hrot : s.rotationState.isRotating = true)
    (hface : s.rotationState.currentFace = some face) :
    (s.rotationState.progress + delta / rotationSpeed < 1 →
        (frameStep s delta).cubiePositions = s.cubiePositions ∧
        (frameStep s delta).rotationState.progress =
          s.rotationState.progress + delta / rotationSpeed ∧
        (frameStep s delta).transforms =
          updateTransforms s.transforms (getCubiesInLayer s.cubiePositions face)
            (calculateLayerRotation s.cubiePositions face
              (Real.pi / 2 * easeInOutCubic
                (min (s.rotationState.progress + delta / rotationSpeed) 1))) ∧
        ∀ i : ℕ, (i : ℤ) ∉ getCubiesInLayer s.cubiePositions face →
          (frameStep s delta).transforms.getD i default = s.transforms.getD i default) ∧
      (1 ≤ s.rotationState.progress + delta / rotationSpeed →
        (frameStep s delta).cubiePositions = rotateLayer s.cubiePositions face) := by
  obtain ⟨cp, tf, rs, gx, gy⟩ := s
  obtain ⟨ir, cf, pg, si, sp, rp⟩ := rs
  dsimp only at hrot hface
  subst hrot
  subst hface
  dsimp only [frameStep]
  constructor
  · intro hlt
    have hcond : ¬ (1 : ℝ) ≤ min (pg + delta / rotationSpeed) 1 := by
      rw [not_le]
      exact lt_of_le_of_lt (min_le_left _ _) hlt
    rw [if_neg hcond]
    refine ⟨rfl, rfl, rfl, ?_⟩
    intro i hmem
    exact updateTransforms_getD_notMem tf _ _ i hmem
  · intro hge
    have hcond : (1 : ℝ) ≤ min (pg + delta / rotationSpeed) 1 := le_min hge le_rfl
    rw [if_pos hcond]

/-- C2: while a rotation is in progress and the incremented progress stays
below 1, a frame step leaves the authoritative grid state untouched and only
rewrites the renderer-visible transforms of the cubies in the active layer,
setting them to the `calculateLayerRotation` result at angle
`π/2 * ease(min(progress, 1))`; the grid state is replaced (by `rotateLayer`)
exactly on the frame where the turn reaches 90 degrees. -/
theorem claim_midturn_frame (s : FrameState) (delta : ℝ) (face : Face)
    (hrot : s.rotationState.isRotating = true)
    (hface : s.rotationState.currentFace = some face) :
    (s.rotationState.progress + delta / rotationSpeed < 1 →
        (frameStep s delta).cubiePositions = s.cubiePositions ∧
        (frameStep s delta).rotationState.progress =
          s.rotationState.progress + delta / rotationSpeed ∧
        (frameStep s delta).transforms =
          updateTransforms s.transforms (getCubiesInLayer s.cubiePositions face)
            (calculateLayerRotation s.cubiePositions face
              (Real.pi / 2 * easeInOutCubic
                (min (s.rotationState.progress + delta / rotationSpeed) 1))) ∧
        ∀ i : ℕ, (i : ℤ) ∉ getCubiesInLayer s.cubiePositions face →
          (frameStep s delta).transforms.getD i default = s.transforms.getD i default) ∧
      (1 ≤ s.rotationState.progress + delta / rotationSpeed →
        (frameStep s delta).cubiePositions = rotateLayer s.cubiePositions face) := by
  exact frameStep_midturn s delta face hrot hface

/-- A concrete mid-rotation state used to exercise the frame driver. -/
noncomputable def midRotationState : FrameState :=
  { cubiePositions := initialCubiePositions
    transforms := initialCubiePositions.map fun c => (c.position, c.quaternion)
    rotationState := { isRotating := true, currentFace := some Face.RIGHT, progress := 0.5,
                       sequenceIndex := 0, inSequencePause := false, inRotationPause := false }
    groupRotX := 0
    groupRotY := 0 }

/-- C2 witness: the frame-effect theorem applied to a concrete rotating state
with `delta = 0.1` (progress stays below 1). -/
theorem claim_midturn_frame_witness :
    midRotationState.rotationState.isRotating = true ∧
      midRotationState.rotationState.currentFace = some Face.RIGHT ∧
      midRotationState.rotationState.progress + 0.1 / rotationSpeed < 1 ∧
      (frameStep midRotationState 0.1).cubiePositions = midRotationState.cubiePositions := by
  have h := claim_midturn_frame midRotationState 0.1 Face.RIGHT rfl rfl
  have hlt : midRotationState.rotationState.progress + 0.1 / rotationSpeed < 1 := by
    show (0.5 : ℝ) + 0.1 / rotationSpeed < 1
    norm_num [rotationSpeed]
  exact ⟨rfl, rfl, hlt, (h.1 hlt).1⟩

theorem frameStep_groupRotY (s : FrameState) (delta : ℝ) :
    (frameStep s delta).groupRotY = s.groupRotY + delta * cubeRotationSpeed := by
  obtain ⟨cp, tf, rs, gx, gy⟩ := s
  obtain ⟨ir, cf, pg, si, sp, rp⟩ := rs
  dsimp only [frameStep]
  cases cf <;> cases ir
  all_goals first
    | rfl
    | (dsimp only; split <;> rfl)

theorem frameStep_groupRotX (s : FrameState) (delta : ℝ) :
    (frameStep s delta).groupRotX = s.groupRotX + delta * (cubeRotationSpeed / 2) := by
  obtain ⟨cp, tf, rs, gx, gy⟩ := s
  obtain ⟨ir, cf, pg, si, sp, rp⟩ := rs
  dsimp only [frameStep]
  cases cf <;> cases ir
  all_goals first
    | rfl
    | (dsimp only; split <;> rfl)

/-- C9: the frame driver does not clamp a negative `deltaTime`: invoked with
`delta = -0.17` on a mid-rotation state, the animation progress and both
idle-spin angles strictly decrease (the state is rewound), contradicting the
required clamping to zero. -/
theorem claim_negative_delta_rewinds :
    (frameStep midRotationState (-0.17)).rotationState.progress <
        midRotationState.rotationState.progress ∧
      (frameStep midRotationState (-0.17)).groupRotY < midRotationState.groupRotY ∧
      (frameStep midRotationState (-0.17)).groupRotX < midRotationState.groupRotX := by
  have h := frameStep_midturn midRotationState (-0.17) Face.RIGHT rfl rfl
  have hlt : midRotationState.rotationState.progress + (-0.17) / rotationSpeed < 1 := by
    show (0.5 : ℝ) + (-0.17) / rotationSpeed < 1
    norm_num [rotationSpeed]
  obtain ⟨-, hpg, -, -⟩ := h.1 hlt
  refine ⟨?_, ?_, ?_⟩
  · rw [hpg]
    show (0.5 : ℝ) + (-0.17) / rotationSpeed < 0.5
    norm_num [rotationSpeed]
  · rw [frameStep_groupRotY]
    show midRotationState.groupRotY + (-0.17) * cubeRotationSpeed < midRotationState.groupRotY
    norm_num [cubeRotationSpeed]
  · rw [frameStep_groupRotX]
    show midRotationState.groupRotX + (-0.17) * (cubeRotationSpeed / 2) <
      midRotationState.groupRotX
    norm_num [cubeRotationSpeed]

/-! ### Overshoot variant (the second source file) -/

/-- `EPSILON` of the overshoot variant. -/
noncomputable def EPSILON2 : ℝ := 0.0000001

/-- `CUBE_GAP` of the overshoot variant. -/
noncomputable def CUBE_GAP2 : ℝ := 0.000001

/-- `ROTATION_DIRECTIONS` of the overshoot variant: all `1`. -/
noncomputable def rotationDirection2 : Face → ℝ := fun _ => 1

/-- `rotationDuration` of the overshoot variant. -/
noncomputable def rotationDuration2 : ℝ := 0.8

/-- `baseRotation`: 90 degrees. -/
noncomputable def baseRotation : ℝ := Real.pi / 2

/-- `overshootAmount`: `THREE.MathUtils.degToRad(3)`. -/
noncomputable def overshootAmount : ℝ := 3 * (Real.pi / 180)

/-- `getFaceCenter` of the overshoot variant. -/
noncomputable def getFaceCenter2 (face : Face) : Vec3 :=
  match axisIdx face with
  | 0 => ⟨layerValue face * (CUBE_SIZE + CUBE_GAP2), 0, 0⟩
  | 1 => ⟨0, layerValue face * (CUBE_SIZE + CUBE_GAP2), 0⟩
  | _ => ⟨0, 0, layerValue face * (CUBE_SIZE + CUBE_GAP2)⟩

/-- `getCubiesInLayer` of the overshoot variant. -/
noncomputable def getCubiesInLayer2 (cubies : List CubiePosition) (face : Face) : List ℤ :=
  (cubies.mapIdx fun i cubie =>
      if |cubie.indices.getComponent (axisIdx face) - layerValue face| < EPSILON2
      then (i : ℤ) else -1).filter (· ≠ -1)

/-- `snapToGrid` of the overshoot variant. -/
noncomputable def snapToGrid2 (vec : Vec3) : Vec3 :=
  ⟨if |vec.x| < EPSILON2 then 0 else Real.sign vec.x * (round |vec.x| : ℤ),
   if |vec.y| < EPSILON2 then 0 else Real.sign vec.y * (round |vec.y| : ℤ),
   if |vec.z| < EPSILON2 then 0 else Real.sign vec.z * (round |vec.z| : ℤ)⟩

/-- `calculateLayerRotation` of the overshoot variant. -/
noncomputable def calculateLayerRotation2 (cubies : List CubiePosition) (face : Face)
    (angle : ℝ) : List CubiePosition :=
  let cubiesInLayer := getCubiesInLayer2 cubies face
  let axis := rotationAxis face
  let direction := rotationDirection2 face
  let centerPoint := getFaceCenter2 face
  let rotationQuat := Quat.setFromAxisAngle axis (angle * direction)
  cubies.mapIdx fun index cubie =>
    if ¬ ((index : ℤ) ∈ cubiesInLayer) then cubie
    else
      let newPosition := ((cubie.position.sub centerPoint).applyAxisAngle axis
        (angle * direction)).add centerPoint
      let newIndices := cubie.indices.applyAxisAngle axis (angle * direction)
      let newQuaternion := cubie.quaternion.premultiply rotationQuat
      { cubie with position := newPosition, indices := newIndices, quaternion := newQuaternion }

/-- `rotateLayer` of the overshoot variant: snaps only the grid indices. -/
noncomputable def rotateLayer2 (cubies : List CubiePosition) (face : Face) : List CubiePosition :=
  let rotatedPositions := calculateLayerRotation2 cubies face (Real.pi / 2)
  rotatedPositions.map fun cubie => { cubie with indices := snapToGrid2 cubie.indices }

/-- The `rotationState` record of the overshoot variant. -/
structure RotationState2 where
  isRotating : Bool
  currentFace : Option Face
  progress : ℝ
  sequenceIndex : ℕ
  inSequencePause : Bool
  inRotationPause : Bool
  overshootPhase : Bool
  overshootReturn : Bool

/-- Whole-engine state of the overshoot variant. -/
structure FrameState2 where
  cubiePositions : List CubiePosition
  transforms : List (Vec3 × Quat)
  rotationState : RotationState2
  groupRotX : ℝ
  groupRotY : ℝ

/-- The phase handling of the overshoot variant's `useFrame`: given the
rotation state and the already-incremented progress, returns the flag updates
made inside the phase branches, the frame's `angleToRotate`, the
`isRotationComplete` flag, and the (committed or untouched) cubie state. -/
noncomputable def overshootStep (rs : RotationState2) (cubies : List CubiePosition)
    (face : Face) (newProgress : ℝ) : RotationState2 × ℝ × Bool × List CubiePosition :=
  if rs.overshootPhase then
    if 1 ≤ newProgress then
      ({ rs with overshootPhase := false, overshootReturn := true, progress := 0 },
        baseRotation + overshootAmount, false, cubies)
    else
      (rs, baseRotation * easeInOutCubic newProgress +
        overshootAmount * easeInOutCubic newProgress, false, cubies)
  else if rs.overshootReturn then
    if 1 ≤ newProgress then
      (rs, baseRotation, true, rotateLayer2 cubies face)
    else
      (rs, baseRotation + overshootAmount * (1 - easeInOutCubic newProgress), false, cubies)
  else
    if 1 ≤ newProgress then
      ({ rs with overshootPhase := true, progress := 0 }, baseRotation, false, cubies)
    else
      (rs, baseRotation * easeInOutCubic newProgress, false, cubies)

/-- One invocation of the overshoot variant's `useFrame` callback.  The queued
React state updates of one frame (the phase branch's update followed by the
trailing progress/completion update) are applied in order, reproducing the
source's update merging.  The source's rendering quirk of computing the
intermediate transforms from face `'TOP'` is reproduced verbatim. -/
noncomputable def frameStep2 (s : FrameState2) (delta : ℝ) : FrameState2 :=
  let s1 := { s with groupRotY := s.groupRotY + delta * 0.01,
                     groupRotX := s.groupRotX + delta * 0.005 }
  match s1.rotationState.currentFace, s1.rotationState.isRotating with
  | some face, true =>
    let cubiesInLayer := getCubiesInLayer2 s1.cubiePositions face
    let newProgress := s1.rotationState.progress + delta / rotationDuration2
    let pr := overshootStep s1.rotationState s1.cubiePositions face newProgress
    let rs1 := pr.1
    let angleToRotate := pr.2.1
    let isRotationComplete := pr.2.2.1
    let newPositions := pr.2.2.2
    let tempPositions := calculateLayerRotation2 s1.cubiePositions Face.TOP angleToRotate
    let transforms1 := updateTransforms s1.transforms cubiesInLayer tempPositions
    let rs2 :=
      if isRotationComplete then
        { rs1 with
          isRotating := false
          inRotationPause := true
          progress := 0
          overshootPhase := false
          overshootReturn := false }
      else
        { rs1 with progress := newProgress }
    { s1 with cubiePositions := newPositions, transforms := transforms1, rotationState := rs2 }
  | _, _ =>
    let rs :=
      if ¬ s1.rotationState.inRotationPause ∧ ¬ s1.rotationState.inSequencePause ∧
          ¬ s1.rotationState.isRotating then
        { s1.rotationState with
          isRotating := true
          currentFace := some (rotationSequence.getD 0 Face.RIGHT)
          progress := 0
          sequenceIndex := 0
          inSequencePause := false
          inRotationPause := false
          overshootPhase := false
          overshootReturn := false }
      else s1.rotationState
    let transforms1 :=
      if s1.rotationState.isRotating then s1.transforms
      else
        s1.transforms.mapIdx fun i t =>
          match s1.cubiePositions.get? i with
          | some c => (c.position, c.quaternion)
          | none => t
    { s1 with rotationState := rs, transforms := transforms1 }

/-- C6: in the overshoot variant, reaching `progress ≥ 1` while Rotating does
not commit the turn: the machine raises the Overshoot flag; the Overshoot
sub-phase's angle eases toward `90° + δ` (`δ = 3°` in radians), reaching
exactly `90° + δ` when it hands over to OvershootReturn; the OvershootReturn
sub-phase's angle eases from `90° + δ` back to exactly `90°`; and only when
OvershootReturn completes is the grid state committed (`rotateLayer2`). -/
theorem claim_overshoot_phases (s : FrameState2) (delta : ℝ) (face : Face)
    (hrot : s.rotationState.isRotating = true)
    (hface : s.rotationState.currentFace = some face) :
    (s.rotationState.overshootPhase = false → s.rotationState.overshootReturn = false →
        1 ≤ s.rotationState.progress + delta / rotationDuration2 →
        (frameStep2 s delta).rotationState.overshootPhase = true ∧
        (frameStep2 s delta).rotationState.isRotating = true ∧
        (frameStep2 s delta).cubiePositions = s.cubiePositions) ∧
      (s.rotationState.overshootPhase = true →
        s.rotationState.progress + delta / rotationDuration2 < 1 →
        (overshootStep s.rotationState s.cubiePositions face
            (s.rotationState.progress + delta / rotationDuration2)).2.1 =
          baseRotation * easeInOutCubic (s.rotationState.progress + delta / rotationDuration2) +
            overshootAmount *
              easeInOutCubic (s.rotationState.progress + delta / rotationDuration2) ∧
        (frameStep2 s delta).cubiePositions = s.cubiePositions) ∧
      (s.rotationState.overshootPhase = true →
        1 ≤ s.rotationState.progress + delta / rotationDuration2 →
        (frameStep2 s delta).rotationState.overshootReturn = true ∧
        (overshootStep s.rotationState s.cubiePositions face
            (s.rotationState.progress + delta / rotationDuration2)).2.1 =
          baseRotation + overshootAmount ∧
        (frameStep2 s delta).cubiePositions = s.cubiePositions) ∧
      (s.rotationState.overshootPhase = false → s.rotationState.overshootReturn = true →
        s.rotationState.progress + delta / rotationDuration2 < 1 →
        (overshootStep s.rotationState s.cubiePositions face
            (s.rotationState.progress + delta / rotationDuration2)).2.1 =
          baseRotation + overshootAmount *
            (1 - easeInOutCubic (s.rotationState.progress + delta / rotationDuration2)) ∧
        (frameStep2 s delta).cubiePositions = s.cubiePositions ∧
        (frameStep2 s delta).rotationState.isRotating = true) ∧
      (s.rotationState.overshootPhase = false → s.rotationState.overshootReturn = true →
        1 ≤ s.rotationState.progress + delta / rotationDuration2 →
        (overshootStep s.rotationState s.cubiePositions face
            (s.rotationState.progress + delta / rotationDuration2)).2.1 = baseRotation ∧
        (frameStep2 s delta).cubiePositions = rotateLayer2 s.cubiePositions face ∧
        (frameStep2 s delta).rotationState.isRotating = false) := by
  obtain ⟨cp, tf, rs, gx, gy⟩ := s
  obtain ⟨ir, cf, pg, si, sp, rp, op, orr⟩ := rs
  dsimp only at hrot hface
  subst hrot
  subst hface
  refine ⟨?_, ?_, ?_, ?_, ?_⟩
  · intro hop hor hge
    dsimp only at hop hor hge
    subst hop
    subst hor
    have hpr : overshootStep ⟨true, some face, pg, si, sp, rp, false, false⟩ cp face
        (pg + delta / rotationDuration2) =
        (⟨true, some face, 0, si, sp, rp, true, false⟩, baseRotation, false, cp) := by
      dsimp only [overshootStep]
      rw [if_neg (by simp), if_neg (by simp), if_pos hge]
    dsimp only [frameStep2]
    rw [hpr]
    simp
  · intro hop hlt
    dsimp only at hop hlt
    subst hop
    have hpr : overshootStep ⟨true, some face, pg, si, sp, rp, true, orr⟩ cp face
        (pg + delta / rotationDuration2) =
        (⟨true, some face, pg, si, sp, rp, true, orr⟩,
          baseRotation * easeInOutCubic (pg + delta / rotationDuration2) +
            overshootAmount * easeInOutCubic (pg + delta / rotationDuration2), false, cp) := by
      dsimp only [overshootStep]
      rw [if_pos (by simp), if_neg (not_le.mpr hlt)]
    dsimp only [frameStep2]
    rw [hpr]
    simp
  · intro hop hge
    dsimp only at hop hge
    subst hop
    have hpr : overshootStep ⟨true, some face, pg, si, sp, rp, true, orr⟩ cp face
        (pg + delta / rotationDuration2) =
        (⟨true, some face, 0, si, sp, rp, false, true⟩,
          baseRotation + overshootAmount, false, cp) := by
      dsimp only [overshootStep]
      rw [if_pos (by simp), if_pos hge]
    dsimp only [frameStep2]
    rw [hpr]
    simp
  · intro hop hor hlt
    dsimp only at hop hor hlt
    subst hop
    subst hor
    have hpr : overshootStep ⟨true, some face, pg, si, sp, rp, false, true⟩ cp face
        (pg + delta / rotationDuration2) =
        (⟨true, some face, pg, si, sp, rp, false, true⟩,
          baseRotation + overshootAmount *
            (1 - easeInOutCubic (pg + delta / rotationDuration2)), false, cp) := by
      dsimp only [overshootStep]
      rw [if_neg (by simp), if_pos (by simp), if_neg (not_le.mpr hlt)]
    dsimp only [frameStep2]
    rw [hpr]
    simp
  · intro hop hor hge
    dsimp only at hop hor hge
    subst hop
    subst hor
    have hpr : overshootStep ⟨true, some face, pg, si, sp, rp, false, true⟩ cp face
        (pg + delta / rotationDuration2) =
        (⟨true, some face, pg, si, sp, rp, false, true⟩,
          baseRotation, true, rotateLayer2 cp face) := by
      dsimp only [overshootStep]
      rw [if_neg (by simp), if_pos (by simp), if_pos hge]
    dsimp only [frameStep2]
    rw [hpr]
    simp

/-- A concrete state of the overshoot variant at the end of the return
sub-phase. -/
noncomputable def overshootReturnState : FrameState2 :=
  { cubiePositions := initialCubiePositions
    transforms := initialCubiePositions.map fun c => (c.position, c.quaternion)
    rotationState := { isRotating := true, currentFace := some Face.RIGHT, progress := 0.5,
                       sequenceIndex := 0, inSequencePause := false, inRotationPause := false,
                       overshootPhase := false, overshootReturn := true }
    groupRotX := 0
    groupRotY := 0 }

/-- C6 witness: the phase theorem applied to a concrete OvershootReturn state
whose progress reaches 1, so the commit fires. -/
theorem claim_overshoot_phases_witness :
    overshootReturnState.rotationState.isRotating = true ∧
      overshootReturnState.rotationState.currentFace = some Face.RIGHT ∧
      overshootReturnState.rotationState.overshootPhase = false ∧
      overshootReturnState.rotationState.overshootReturn = true ∧
      1 ≤ overshootReturnState.rotationState.progress + 0.4 / rotationDuration2 ∧
      (frameStep2 overshootReturnState 0.4).cubiePositions =
        rotateLayer2 overshootReturnState.cubiePositions Face.RIGHT ∧
      (frameStep2 overshootReturnState 0.4).rotationState.isRotating = false := by
  have h := claim_overshoot_phases overshootReturnState 0.4 Face.RIGHT rfl rfl
  have hge : 1 ≤ overshootReturnState.rotationState.progress + 0.4 / rotationDuration2 := by
    show (1 : ℝ) ≤ 0.5 + 0.4 / rotationDuration2
    norm_num [rotationDuration2]
  obtain ⟨-, hcommit, hstop⟩ := h.2.2.2.2 rfl rfl hge
  exact ⟨rfl, rfl, rfl, rfl, hge, hcommit, hstop⟩

end Cube
